import Mathlib

/-!
Verification development for the blind-watermark HTTP service (`server.py`).

The service wraps a watermark codec (the `WaterMark` engine) behind two
operations, `embed_watermark` and `extract_watermark`.  The handler code of
`server.py` is embedded directly.  The watermark engine itself is not part of
the available sources, so it is modelled from the specification: every
definition whose doc comment starts with "Modelled from the spec:" is a
faithful rendering of the spec's description of the missing component
(BitCodec, KeyedPermutation, CapacityPlanner, TransformEmbedder), with any
free choice the spec leaves open noted in the comment.

Texts are sequences of unicode scalar values (`List Char`), matching Python
strings; byte sequences are lists of naturals below 256; a payload bit
sequence is represented by its length together with the big-endian integer
value of its bits (the engine converts between bytes and one big integer);
passwords are modelled as natural numbers (the spec calls them integer
seeds).
-/

set_option maxHeartbeats 4000000
set_option maxRecDepth 8000
set_option exponentiation.threshold 5000

namespace BlindWatermark

/-- Propositional equality of `Except` results is decidable componentwise. -/
instance instDecEqExcept {α β : Type} [DecidableEq α] [DecidableEq β] :
    DecidableEq (Except α β)
  | .ok a, .ok b =>
    if h : a = b then .isTrue (by rw [h])
    else .isFalse (fun hc => by cases hc; exact h rfl)
  | .ok _, .error _ => .isFalse (fun hc => by cases hc)
  | .error _, .ok _ => .isFalse (fun hc => by cases hc)
  | .error a, .error b =>
    if h : a = b then .isTrue (by rw [h])
    else .isFalse (fun hc => by cases hc; exact h rfl)

/-- Maximum accepted watermark text length in characters (`MAX_WATERMARK_LENGTH`). -/
def MAX_WATERMARK_LENGTH : Nat := 256

/-- Fixed bit count that extraction always reads (`FIXED_WM_BIT_LENGTH`). -/
def FIXED_WM_BIT_LENGTH : Nat := 2047

/-- The NUL character used by the service as the padding sentinel. -/
def nulChar : Char := Char.ofNat 0

/-- Python `wm_content.ljust(MAX_WATERMARK_LENGTH, chr(0))`: pad on the right
with NUL characters up to 256 characters; texts already at least that long
are returned unchanged. -/
def ljustPad (t : List Char) : List Char :=
  t ++ List.replicate (MAX_WATERMARK_LENGTH - t.length) nulChar

/-- Python `s.rstrip(chr(0))`: remove every trailing NUL character. -/
def rstripNul (t : List Char) : List Char :=
  (t.reverse.dropWhile (fun c => c == nulChar)).reverse

/-- Modelled from the spec: BitCodec text encoding uses a fixed multi-byte
character encoding; this is standard UTF-8 for one scalar value. -/
def utf8EncodeChar (c : Char) : List Nat :=
  if c.toNat < 128 then [c.toNat]
  else if c.toNat < 2048 then
    [192 + c.toNat / 64, 128 + c.toNat % 64]
  else if c.toNat < 65536 then
    [224 + c.toNat / 4096, 128 + c.toNat / 64 % 64, 128 + c.toNat % 64]
  else
    [240 + c.toNat / 262144, 128 + c.toNat / 4096 % 64,
      128 + c.toNat / 64 % 64, 128 + c.toNat % 64]

/-- Modelled from the spec: UTF-8 encoding of a whole text. -/
def utf8Encode : List Char → List Nat
  | [] => []
  | c :: s => utf8EncodeChar c ++ utf8Encode s

/-- A payload bit sequence: its bit count and the big-endian integer value
of its bits (the first bit is the most significant). -/
structure BitSeq where
  len : Nat
  val : Nat
deriving DecidableEq

/-- Big-endian integer value of a byte sequence. -/
def bytesToNat : List Nat → Nat
  | [] => 0
  | b :: bs => b * 256 ^ bs.length + bytesToNat bs

/-- Modelled from the spec: `BitCodec.encode` — text to bytes to bits; the
bit length is computed from the byte length, eight bits per byte. -/
def textToBits (t : List Char) : BitSeq :=
  ⟨8 * (utf8Encode t).length, bytesToNat (utf8Encode t)⟩

/-- Big-endian byte sequence of length `k` for an integer value. -/
def bytesOfNat : Nat → Nat → List Nat
  | 0, _ => []
  | k + 1, v => v / 256 ^ k :: bytesOfNat k (v % 256 ^ k)

/-- The Unicode replacement character, produced for undecodable bytes. -/
def replChar : Char := Char.ofNat 65533

/-- Tests whether a byte is a UTF-8 continuation byte. -/
def isCont (b : Nat) : Bool := b / 64 == 2

/-- One step of the total UTF-8 decoder: decode one scalar value from the
leading byte and the remaining bytes, returning the decoded character and
the bytes not consumed.  Undecodable input yields the replacement character
(decoding is total; the engine decodes with replacement, never an error). -/
def utf8DecodeStep (b : Nat) (rest : List Nat) : Char × List Nat :=
  if b < 128 then (Char.ofNat b, rest)
  else if b < 192 then (replChar, rest)
  else if b < 224 then
    if 1 ≤ rest.length ∧ isCont (rest.headD 0) = true then
      (Char.ofNat ((b - 192) * 64 + (rest.headD 0 - 128)), rest.drop 1)
    else (replChar, rest)
  else if b < 240 then
    if 2 ≤ rest.length ∧ isCont (rest.headD 0) = true ∧
        isCont ((rest.drop 1).headD 0) = true then
      (Char.ofNat ((b - 224) * 4096 + (rest.headD 0 - 128) * 64 +
        ((rest.drop 1).headD 0 - 128)), rest.drop 2)
    else (replChar, rest)
  else
    if 3 ≤ rest.length ∧ isCont (rest.headD 0) = true ∧
        isCont ((rest.drop 1).headD 0) = true ∧
        isCont ((rest.drop 2).headD 0) = true then
      (Char.ofNat ((b - 240) * 262144 + (rest.headD 0 - 128) * 4096 +
        ((rest.drop 1).headD 0 - 128) * 64 + ((rest.drop 2).headD 0 - 128)),
        rest.drop 3)
    else (replChar, rest)

/-- Fuelled driver of the UTF-8 decoder; each step consumes at least the
leading byte, so fuel equal to the byte count suffices. -/
def utf8DecodeFuel : Nat → List Nat → List Char
  | 0, _ => []
  | _ + 1, [] => []
  | fuel + 1, b :: rest =>
    (utf8DecodeStep b rest).1 :: utf8DecodeFuel fuel (utf8DecodeStep b rest).2

/-- Modelled from the spec: total UTF-8 decoding of a byte sequence. -/
def utf8Decode (bs : List Nat) : List Char :=
  utf8DecodeFuel bs.length bs

/-- Modelled from the spec: `BitCodec.decode` — align the recovered bits to
whole bytes by zero-padding on the most significant side (the engine decodes
through a big-endian integer, which left-pads), then decode the bytes. -/
def bitsToText (b : BitSeq) : List Char :=
  utf8Decode (bytesOfNat ((b.len + 7) / 8) b.val)

/-- Modulus of the pseudorandom seed state: seeds act modulo `2 ^ 32`, as in
the engine's pseudorandom generator. -/
def SEED_MOD : Nat := 4294967296

/-- One step of the linear congruential pseudorandom generator used to model
the seed-derived streams. -/
def lcgStep (s : Nat) : Nat := (1103515245 * s + 12345) % SEED_MOD

/-- Pseudorandom words from a generator state, concatenated big-endian. -/
def ksWords : Nat → Nat → Nat
  | _, 0 => 0
  | s, k + 1 => lcgStep s * SEED_MOD ^ k + ksWords (lcgStep s) k

/-- Modelled from the spec: KeyedPermutation derives a deterministic
pseudorandom bit stream from an integer seed; the spec fixes only determinism
and seed dependence, so a linear congruential word stream truncated to `n`
bits is used. -/
def keystream (seed n : Nat) : Nat :=
  ksWords (seed % SEED_MOD) ((n + 31) / 32) % 2 ^ n

/-- Modelled from the spec: `KeyedPermutation.scramble` — the watermark
password determines how each bit value is scrambled; modelled as a pointwise
exclusive-or with the seed-derived stream, which is its own inverse. -/
def scramble (seed : Nat) (b : BitSeq) : BitSeq :=
  ⟨b.len, b.val ^^^ keystream seed b.len⟩

/-- Rotation offset selected by the image password for an `L`-bit payload. -/
def rotOffset (pimg L : Nat) : Nat :=
  if L = 0 then 0 else pimg % SEED_MOD % L

/-- Left rotation of an `L`-bit value by `r` bits. -/
def rotL (r L v : Nat) : Nat :=
  v % 2 ^ (L - r) * 2 ^ r + v / 2 ^ (L - r)

/-- Modelled from the spec: `KeyedPermutation.locations` — the image password
selects where the bits are hidden; modelled as a seed-derived rotation of the
slot order, which a matching seed undoes exactly. -/
def storeBits (pimg : Nat) (b : BitSeq) : BitSeq :=
  ⟨b.len, rotL (rotOffset pimg b.len) b.len b.val⟩

/-- Modelled from the spec: reading the slots back in the order selected by
the image password (the inverse rotation). -/
def readStored (pimg : Nat) (b : BitSeq) : BitSeq :=
  ⟨b.len, rotL (b.len - rotOffset pimg b.len) b.len b.val⟩

/-- First `n` bits of a payload (the most significant ones); reading more
bits than are stored returns what is there. -/
def takeBits (n : Nat) (b : BitSeq) : BitSeq :=
  ⟨min n b.len, b.val / 2 ^ (b.len - n)⟩

/-- A raster image: the pixel buffer dimensions (the pixel contents do not
influence the control flow being verified). -/
structure RasterImage where
  height : Nat
  width : Nat
deriving DecidableEq

/-- Modelled from the spec: `CapacityPlanner.capacity` — a deterministic
function of the dimensions under the 4-by-4 transform block scheme, one
payload bit per block. -/
def capacity (h w : Nat) : Nat := (h / 4) * (w / 4)

/-- A watermarked image: its dimensions together with the bit slots written
by the transform embedder (the coefficient modulation itself is abstracted;
the spec's compression-tolerance assumption makes the re-encoded image carry
exactly the written slots). -/
structure CodedImage where
  height : Nat
  width : Nat
  stored : BitSeq
deriving DecidableEq

/-- Failures raised by the modelled watermark engine. -/
inductive LibError where
  | capacityExceeded : LibError
deriving DecidableEq

/-- Message text of an engine failure (the engine is missing from the
sources, so the wording is modelled). -/
def libErrMsg : LibError → String
  | .capacityExceeded => "watermark size exceeds the image capacity"

/-- Modelled from the spec: the embed side of the engine — check the payload
bit count against the capacity (failing with the capacity error exactly when
it is strictly larger), scramble with the watermark password, and write the
bits at the locations selected by the image password. -/
def wmEmbed (img : RasterImage) (pimg pwm : Nat) (bits : BitSeq) :
    Except LibError CodedImage :=
  if bits.len ≤ capacity img.height img.width then
    .ok ⟨img.height, img.width, storeBits pimg (scramble pwm bits)⟩
  else
    .error .capacityExceeded

/-- Modelled from the spec: the extract side of the engine — read the slots
in the order selected by the image password, unscramble with the watermark
password, and return the first `n` bits, where `n` is the caller-supplied
bit length. -/
def wmExtractBits (c : CodedImage) (pimg pwm n : Nat) : BitSeq :=
  takeBits n (scramble pwm (readStored pimg c.stored))

/-- An uploaded file body, as seen through the external image container
codec: either bytes that do not decode to an image, or bytes decoding to a
plain raster, or bytes decoding to a watermarked raster produced by embed. -/
inductive ImageUpload where
  | invalid : ImageUpload
  | plain : RasterImage → ImageUpload
  | coded : CodedImage → ImageUpload
deriving DecidableEq

/-- The external `cv2.imdecode` primitive viewed by the embed handler: the
raster buffer, or `none` when the bytes do not decode. -/
def imdecode : ImageUpload → Option RasterImage
  | .invalid => none
  | .plain r => some r
  | .coded c => some ⟨c.height, c.width⟩

/-- The external `cv2.imdecode` primitive viewed by the extract handler: a
watermarked raster, or `none` when the bytes do not decode.  Decoding a
never-watermarked raster yields empty slots (extraction then reads noise). -/
def imdecodeCoded : ImageUpload → Option CodedImage
  | .invalid => none
  | .plain r => some ⟨r.height, r.width, ⟨0, 0⟩⟩
  | .coded c => some c

/-- An HTTP error response as raised through `HTTPException`. -/
structure HTTPEx where
  status : Nat
  detail : String
deriving DecidableEq

/-- A Python exception escaping the handler body: either an `HTTPException`
or an engine failure. -/
inductive PyErr where
  | http : Nat → String → PyErr
  | lib : LibError → PyErr
deriving DecidableEq

/-- Python `str(e)` for the exceptions above; `HTTPException` prints as
status, colon, detail. -/
def pyErrStr : PyErr → String
  | .http s d => toString s ++ ": " ++ d
  | .lib e => libErrMsg e

/-- Detail text of the length-validation failure in `embed_watermark`. -/
def validationDetail : String :=
  "Watermark content exceeds maximum length of 256 characters"

/-- Detail text of the undecodable-image failure in both handlers. -/
def invalidImageDetail : String := "Invalid image file."

/-- Detail text of the catch-all failure in `embed_watermark`. -/
def embedWrapDetail (e : PyErr) : String :=
  "An error occurred during embedding: " ++ pyErrStr e

/-- Detail text of the catch-all failure in `extract_watermark`. -/
def extractWrapDetail (e : PyErr) : String :=
  "An error occurred during extraction: " ++ pyErrStr e

/-- The embed handler's success payload: the watermarked image together with
the response headers `X-Original-Length` (the original character count,
echoed for debugging) and `X-Max-Length`. -/
structure EmbedSuccess where
  image : CodedImage
  xOriginalLength : Nat
  xMaxLength : Nat
deriving DecidableEq

/-- Body of the `try` block of `embed_watermark`, in the statement order of
the handler: validate the character count, pad to 256 characters, decode the
upload, convert the padded text to bits, and run the engine's embed. -/
def embed_body (pimg pwm : Nat) (wm_content : List Char) (file : ImageUpload) :
    Except PyErr EmbedSuccess :=
  if MAX_WATERMARK_LENGTH < wm_content.length then
    .error (.http 400 validationDetail)
  else
    match imdecode file with
    | none => .error (.http 400 invalidImageDetail)
    | some ori_img =>
      match wmEmbed ori_img pimg pwm (textToBits (ljustPad wm_content)) with
      | .error e => .error (.lib e)
      | .ok coded => .ok ⟨coded, wm_content.length, MAX_WATERMARK_LENGTH⟩

/-- The `/embed` handler: the body above, with the handler's two `except`
clauses — an `HTTPException` is re-raised unchanged, any other exception is
wrapped into a 500 response. -/
def embed_watermark (pimg pwm : Nat) (wm_content : List Char)
    (file : ImageUpload) : Except HTTPEx EmbedSuccess :=
  match embed_body pimg pwm wm_content file with
  | .ok r => .ok r
  | .error (.http s d) => .error ⟨s, d⟩
  | .error (.lib e) => .error ⟨500, embedWrapDetail (.lib e)⟩

/-- Body of the `try` block of `extract_watermark`: decode the upload
(raising a 400 `HTTPException` when it does not decode), extract the fixed
2047 bits with the supplied passwords, decode them to text, and strip the
trailing NUL padding. -/
def extract_body (pimg pwm : Nat) (file : ImageUpload) :
    Except PyErr (List Char) :=
  match imdecodeCoded file with
  | none => .error (.http 400 invalidImageDetail)
  | some c =>
    .ok (rstripNul (bitsToText (wmExtractBits c pimg pwm FIXED_WM_BIT_LENGTH)))

/-- The `/extract` handler: the body above with its single catch-all
`except Exception` clause, which wraps every exception — including the 400
`HTTPException` raised for an undecodable image — into a 500 response. -/
def extract_watermark (pimg pwm : Nat) (file : ImageUpload) :
    Except HTTPEx (List Char) :=
  match extract_body pimg pwm file with
  | .ok t => .ok t
  | .error e => .error ⟨500, extractWrapDetail e⟩

/-- The concrete five-character text of the spec's scenario. -/
def helloText : List Char := ['h', 'e', 'l', 'l', 'o']

/-- The 512-by-512 source image of the spec's scenario. -/
def img512 : RasterImage := ⟨512, 512⟩

/-- The slot contents produced by embedding the scenario text with the
scenario passwords 1234 and 5678. -/
def helloStored : BitSeq :=
  storeBits 1234 (scramble 5678 (textToBits (ljustPad helloText)))

/-- The watermarked scenario image. -/
def helloCoded : CodedImage := ⟨512, 512, helloStored⟩

/-- A two-character text ending in the NUL sentinel. -/
def aNulText : List Char := ['a', nulChar]

/-- The slot contents produced by embedding `aNulText` with the scenario
passwords. -/
def aNulStored : BitSeq :=
  storeBits 1234 (scramble 5678 (textToBits (ljustPad aNulText)))

/-- The watermarked image for `aNulText`. -/
def aNulCoded : CodedImage := ⟨512, 512, aNulStored⟩

/-- The slot contents produced by embedding the empty text with the scenario
passwords. -/
def emptyStored : BitSeq :=
  storeBits 1234 (scramble 5678 (textToBits (ljustPad [])))

/-- The watermarked image for the empty text. -/
def emptyCoded : CodedImage := ⟨512, 512, emptyStored⟩

/-- A 256-character text of three-byte characters. -/
def cjkText : List Char := List.replicate 256 (Char.ofNat 20320)

theorem ljustPad_length (t : List Char) (h : t.length ≤ MAX_WATERMARK_LENGTH) :
    (ljustPad t).length = MAX_WATERMARK_LENGTH := by
  simp only [ljustPad, List.length_append, List.length_replicate]
  omega

theorem dropWhile_replicate_append (p : Char → Bool) (a : Char)
    (hp : p a = true) (k : Nat) (l : List Char) :
    List.dropWhile p (List.replicate k a ++ l) = List.dropWhile p l := by
  induction k with
  | zero => simp
  | succ n ih => simp [List.replicate_succ, List.dropWhile_cons, hp, ih]

theorem rstripNul_append_replicate (t : List Char) (k : Nat) :
    rstripNul (t ++ List.replicate k nulChar) = rstripNul t := by
  simp only [rstripNul, List.reverse_append, List.reverse_replicate]
  rw [dropWhile_replicate_append _ _ (by simp) k]

theorem rstripNul_ljustPad (t : List Char) :
    rstripNul (ljustPad t) = rstripNul t :=
  rstripNul_append_replicate t _

theorem head?_dropWhile_false (p : Char → Bool) (l : List Char) (a : Char)
    (h : (List.dropWhile p l).head? = some a) : p a = false := by
  induction l with
  | nil => simp [List.dropWhile] at h
  | cons x xs ih =>
    rw [List.dropWhile_cons] at h
    by_cases hx : p x = true
    · rw [if_pos hx] at h
      exact ih h
    · rw [if_neg hx] at h
      simp only [List.head?_cons, Option.some.injEq] at h
      rw [← h]
      exact Bool.eq_false_iff.mpr hx

theorem rstripNul_getLast? (t : List Char) :
    (rstripNul t).getLast? ≠ some nulChar := by
  intro h
  rw [rstripNul, List.getLast?_reverse] at h
  have hfalse := head?_dropWhile_false _ _ _ h
  simp at hfalse

theorem char_toNat_lt (c : Char) : c.toNat < 1114112 := by
  rcases c.valid with h | ⟨_, h⟩
  · exact Nat.lt_trans h (by decide)
  · exact h

theorem mem_utf8EncodeChar_lt (c : Char) : ∀ b ∈ utf8EncodeChar c, b < 256 := by
  intro b hb
  have hc := char_toNat_lt c
  unfold utf8EncodeChar at hb
  split at hb
  · simp only [List.mem_singleton] at hb
    omega
  · split at hb
    · simp only [List.mem_cons, List.not_mem_nil, or_false] at hb
      rcases hb with hb | hb <;> omega
    · split at hb
      · simp only [List.mem_cons, List.not_mem_nil, or_false] at hb
        rcases hb with hb | hb | hb <;> omega
      · simp only [List.mem_cons, List.not_mem_nil, or_false] at hb
        rcases hb with hb | hb | hb | hb <;> omega

theorem mem_utf8Encode_lt (s : List Char) : ∀ b ∈ utf8Encode s, b < 256 := by
  induction s with
  | nil => simp [utf8Encode]
  | cons c cs ih =>
    intro b hb
    rw [utf8Encode] at hb
    rcases List.mem_append.mp hb with h | h
    · exact mem_utf8EncodeChar_lt c b h
    · exact ih b h

theorem utf8EncodeChar_length_pos (c : Char) : 1 ≤ (utf8EncodeChar c).length := by
  unfold utf8EncodeChar
  split
  · simp
  · split
    · simp
    · split <;> simp

theorem utf8EncodeChar_length_le (c : Char) : (utf8EncodeChar c).length ≤ 4 := by
  unfold utf8EncodeChar
  split
  · simp
  · split
    · simp
    · split <;> simp

theorem length_le_utf8Encode (s : List Char) :
    s.length ≤ (utf8Encode s).length := by
  induction s with
  | nil => simp [utf8Encode]
  | cons c cs ih =>
    have h1 := utf8EncodeChar_length_pos c
    rw [utf8Encode, List.length_append, List.length_cons]
    omega

theorem utf8Encode_length_le (s : List Char) :
    (utf8Encode s).length ≤ 4 * s.length := by
  induction s with
  | nil => simp [utf8Encode]
  | cons c cs ih =>
    have h1 := utf8EncodeChar_length_le c
    rw [utf8Encode, List.length_append, List.length_cons]
    omega

theorem isCont_cont (n : Nat) (h : n < 64) : isCont (128 + n) = true := by
  have h2 : (128 + n) / 64 = 2 := by omega
  simp [isCont, h2]

theorem utf8DecodeStep_encode (c : Char) (tail : List Nat) :
    ∃ b bs, utf8EncodeChar c = b :: bs ∧
      utf8DecodeStep b (bs ++ tail) = (c, tail) := by
  have hc := char_toNat_lt c
  by_cases h1 : c.toNat < 128
  · refine ⟨c.toNat, [], ?_, ?_⟩
    · rw [utf8EncodeChar, if_pos h1]
    · rw [List.nil_append]
      unfold utf8DecodeStep
      rw [if_pos h1, Char.ofNat_toNat]
  · by_cases h2 : c.toNat < 2048
    · refine ⟨192 + c.toNat / 64, [128 + c.toNat % 64], ?_, ?_⟩
      · rw [utf8EncodeChar, if_neg h1, if_pos h2]
      · have hb1 : ¬ (192 + c.toNat / 64 < 128) := by omega
        have hb2 : ¬ (192 + c.toNat / 64 < 192) := by omega
        have hb3 : 192 + c.toNat / 64 < 224 := by omega
        rw [List.cons_append, List.nil_append]
        unfold utf8DecodeStep
        rw [if_neg hb1, if_neg hb2, if_pos hb3,
          if_pos (by
            refine ⟨by simp, ?_⟩
            simp only [List.headD_cons]
            exact isCont_cont _ (Nat.mod_lt _ (by omega)))]
        simp only [List.headD_cons, List.drop_succ_cons, List.drop_zero]
        have hval : (192 + c.toNat / 64 - 192) * 64 + (128 + c.toNat % 64 - 128)
            = c.toNat := by omega
        rw [hval, Char.ofNat_toNat]
    · by_cases h3 : c.toNat < 65536
      · refine ⟨224 + c.toNat / 4096,
          [128 + c.toNat / 64 % 64, 128 + c.toNat % 64], ?_, ?_⟩
        · rw [utf8EncodeChar, if_neg h1, if_neg h2, if_pos h3]
        · have hb1 : ¬ (224 + c.toNat / 4096 < 128) := by omega
          have hb2 : ¬ (224 + c.toNat / 4096 < 192) := by omega
          have hb3 : ¬ (224 + c.toNat / 4096 < 224) := by omega
          have hb4 : 224 + c.toNat / 4096 < 240 := by omega
          rw [List.cons_append, List.cons_append, List.nil_append]
          unfold utf8DecodeStep
          rw [if_neg hb1, if_neg hb2, if_neg hb3, if_pos hb4,
            if_pos (by
              refine ⟨by simp, ?_, ?_⟩
              · simp only [List.headD_cons]
                exact isCont_cont _ (Nat.mod_lt _ (by omega))
              · simp only [List.drop_succ_cons, List.drop_zero, List.headD_cons]
                exact isCont_cont _ (Nat.mod_lt _ (by omega)))]
          simp only [List.headD_cons, List.drop_succ_cons, List.drop_zero]
          have hval : (224 + c.toNat / 4096 - 224) * 4096 +
              (128 + c.toNat / 64 % 64 - 128) * 64 +
              (128 + c.toNat % 64 - 128) = c.toNat := by omega
          rw [hval, Char.ofNat_toNat]
      · refine ⟨240 + c.toNat / 262144,
          [128 + c.toNat / 4096 % 64, 128 + c.toNat / 64 % 64,
            128 + c.toNat % 64], ?_, ?_⟩
        · rw [utf8EncodeChar, if_neg h1, if_neg h2, if_neg h3]
        · have hb1 : ¬ (240 + c.toNat / 262144 < 128) := by omega
          have hb2 : ¬ (240 + c.toNat / 262144 < 192) := by omega
          have hb3 : ¬ (240 + c.toNat / 262144 < 224) := by omega
          have hb4 : ¬ (240 + c.toNat / 262144 < 240) := by omega
          rw [List.cons_append, List.cons_append, List.cons_append,
            List.nil_append]
          unfold utf8DecodeStep
          rw [if_neg hb1, if_neg hb2, if_neg hb3, if_neg hb4,
            if_pos (by
              refine ⟨by simp, ?_, ?_, ?_⟩
              · simp only [List.headD_cons]
                exact isCont_cont _ (Nat.mod_lt _ (by omega))
              · simp only [List.drop_succ_cons, List.drop_zero, List.headD_cons]
                exact isCont_cont _ (Nat.mod_lt _ (by omega))
              · simp only [List.drop_succ_cons, List.drop_zero, List.headD_cons]
                exact isCont_cont _ (Nat.mod_lt _ (by omega)))]
          simp only [List.headD_cons, List.drop_succ_cons, List.drop_zero]
          have hval : (240 + c.toNat / 262144 - 240) * 262144 +
              (128 + c.toNat / 4096 % 64 - 128) * 4096 +
              (128 + c.toNat / 64 % 64 - 128) * 64 +
              (128 + c.toNat % 64 - 128) = c.toNat := by omega
          rw [hval, Char.ofNat_toNat]

theorem utf8DecodeFuel_encode (s : List Char) :
    ∀ fuel, (utf8Encode s).length ≤ fuel →
      utf8DecodeFuel fuel (utf8Encode s) = s := by
  induction s with
  | nil =>
    intro fuel _
    cases fuel <;> simp [utf8Encode, utf8DecodeFuel]
  | cons c cs ih =>
    intro fuel hf
    obtain ⟨b, bs, henc, hstep⟩ := utf8DecodeStep_encode c (utf8Encode cs)
    have hlen : (utf8Encode (c :: cs)).length
        = bs.length + 1 + (utf8Encode cs).length := by
      rw [utf8Encode, henc, List.length_append, List.length_cons]
    cases fuel with
    | zero => omega
    | succ f =>
      rw [utf8Encode, henc, List.cons_append, utf8DecodeFuel, hstep]
      have hfs : (utf8Encode cs).length ≤ f := by omega
      rw [ih f hfs]

theorem utf8Decode_encode (s : List Char) : utf8Decode (utf8Encode s) = s :=
  utf8DecodeFuel_encode s _ (Nat.le_refl _)

theorem bytesToNat_lt (bs : List Nat) (h : ∀ b ∈ bs, b < 256) :
    bytesToNat bs < 256 ^ bs.length := by
  induction bs with
  | nil => simp [bytesToNat]
  | cons b rest ih =>
    have hb : b < 256 := h b (by simp)
    have hr : bytesToNat rest < 256 ^ rest.length :=
      ih (fun x hx => h x (by simp [hx]))
    rw [bytesToNat, List.length_cons, pow_succ]
    calc b * 256 ^ rest.length + bytesToNat rest
        < b * 256 ^ rest.length + 256 ^ rest.length :=
          Nat.add_lt_add_left hr _
      _ = (b + 1) * 256 ^ rest.length := by ring
      _ ≤ 256 * 256 ^ rest.length := Nat.mul_le_mul_right _ hb
      _ = 256 ^ rest.length * 256 := Nat.mul_comm _ _

theorem bytesOfNat_bytesToNat (bs : List Nat) (h : ∀ b ∈ bs, b < 256) :
    bytesOfNat bs.length (bytesToNat bs) = bs := by
  induction bs with
  | nil => simp [bytesOfNat]
  | cons b rest ih =>
    have hr : bytesToNat rest < 256 ^ rest.length :=
      bytesToNat_lt rest (fun x hx => h x (by simp [hx]))
    have hpos : 0 < 256 ^ rest.length := Nat.pos_pow_of_pos _ (by omega)
    rw [List.length_cons, bytesToNat, bytesOfNat]
    have hdiv : (b * 256 ^ rest.length + bytesToNat rest) / 256 ^ rest.length
        = b := by
      rw [Nat.mul_comm b, Nat.mul_add_div hpos, Nat.div_eq_of_lt hr,
        Nat.add_zero]
    have hmod : (b * 256 ^ rest.length + bytesToNat rest) % 256 ^ rest.length
        = bytesToNat rest := by
      rw [Nat.mul_comm b, Nat.mul_add_mod, Nat.mod_eq_of_lt hr]
    rw [hdiv, hmod, ih (fun x hx => h x (by simp [hx]))]

theorem textToBits_val_lt (t : List Char) :
    (textToBits t).val < 2 ^ (textToBits t).len := by
  have h := bytesToNat_lt (utf8Encode t) (mem_utf8Encode_lt t)
  simp only [textToBits]
  calc bytesToNat (utf8Encode t) < 256 ^ (utf8Encode t).length := h
    _ = 2 ^ (8 * (utf8Encode t).length) := by
      rw [pow_mul]
      norm_num

theorem bitsToText_textToBits (t : List Char) :
    bitsToText (textToBits t) = t := by
  simp only [bitsToText, textToBits]
  have h8 : (8 * (utf8Encode t).length + 7) / 8 = (utf8Encode t).length := by
    omega
  rw [h8, bytesOfNat_bytesToNat _ (mem_utf8Encode_lt t), utf8Decode_encode]

theorem keystream_lt (seed n : Nat) : keystream seed n < 2 ^ n := by
  exact Nat.mod_lt _ (Nat.pos_pow_of_pos _ (by omega))

theorem scramble_len (seed : Nat) (b : BitSeq) :
    (scramble seed b).len = b.len := rfl

theorem scramble_scramble (seed : Nat) (b : BitSeq) :
    scramble seed (scramble seed b) = b := by
  simp only [scramble, Nat.xor_cancel_right]

theorem scramble_val_lt (seed : Nat) (b : BitSeq) (h : b.val < 2 ^ b.len) :
    (scramble seed b).val < 2 ^ (scramble seed b).len :=
  Nat.xor_lt_two_pow h (keystream_lt seed b.len)

theorem rotL_rotL (r L v : Nat) (hr : r ≤ L) (hv : v < 2 ^ L) :
    rotL (L - r) L (rotL r L v) = v := by
  have hpr : 0 < 2 ^ r := Nat.pos_pow_of_pos _ (by omega)
  have hplr : 0 < 2 ^ (L - r) := Nat.pos_pow_of_pos _ (by omega)
  have hsub : L - (L - r) = r := by omega
  have hhi : v / 2 ^ (L - r) < 2 ^ r := by
    rw [Nat.div_lt_iff_lt_mul hplr]
    calc v < 2 ^ L := hv
      _ = 2 ^ r * 2 ^ (L - r) := by
        rw [← pow_add]
        congr 1
        omega
  simp only [rotL, hsub]
  have hmod : (v % 2 ^ (L - r) * 2 ^ r + v / 2 ^ (L - r)) % 2 ^ r
      = v / 2 ^ (L - r) := by
    rw [Nat.mul_comm, Nat.mul_add_mod, Nat.mod_eq_of_lt hhi]
  have hdiv : (v % 2 ^ (L - r) * 2 ^ r + v / 2 ^ (L - r)) / 2 ^ r
      = v % 2 ^ (L - r) := by
    rw [Nat.add_comm, Nat.add_mul_div_right _ _ hpr, Nat.div_eq_of_lt hhi,
      Nat.zero_add]
  rw [hmod, hdiv, Nat.div_add_mod']

theorem readStored_storeBits (p : Nat) (b : BitSeq) (h : b.val < 2 ^ b.len) :
    readStored p (storeBits p b) = b := by
  rcases Nat.eq_zero_or_pos b.len with hL | hL
  · have hv : b.val = 0 := by
      rw [hL] at h
      omega
    obtain ⟨L, v⟩ := b
    simp only at hL hv
    subst hL hv
    simp [readStored, storeBits, rotOffset, rotL]
  · have hro : rotOffset p b.len ≤ b.len := by
      rw [rotOffset, if_neg (by omega)]
      exact Nat.le_of_lt (Nat.mod_lt _ hL)
    simp only [readStored, storeBits]
    rw [rotL_rotL _ _ _ hro h]

theorem takeBits_all (b : BitSeq) : takeBits b.len b = b := by
  simp [takeBits, Nat.sub_self]

theorem wmExtract_exact (hgt wd p q : Nat) (b : BitSeq) (h : b.val < 2 ^ b.len) :
    wmExtractBits ⟨hgt, wd, storeBits p (scramble q b)⟩ p q b.len = b := by
  simp only [wmExtractBits]
  rw [readStored_storeBits p (scramble q b) (scramble_val_lt q b h),
    scramble_scramble]
  exact takeBits_all b

theorem textToBits_ljustPad_len (t : List Char)
    (h : t.length ≤ MAX_WATERMARK_LENGTH) :
    (textToBits (ljustPad t)).len = 8 * (utf8Encode (ljustPad t)).length ∧
      2048 ≤ (textToBits (ljustPad t)).len := by
  refine ⟨rfl, ?_⟩
  have h1 := length_le_utf8Encode (ljustPad t)
  have h2 := ljustPad_length t h
  have hM : MAX_WATERMARK_LENGTH = 256 := rfl
  simp only [textToBits]
  omega

theorem embed_body_success (pimg pwm : Nat) (t : List Char) (img : RasterImage)
    (h1 : t.length ≤ MAX_WATERMARK_LENGTH)
    (h2 : (textToBits (ljustPad t)).len ≤ capacity img.height img.width) :
    embed_body pimg pwm t (.plain img) =
      .ok ⟨⟨img.height, img.width,
        storeBits pimg (scramble pwm (textToBits (ljustPad t)))⟩,
        t.length, MAX_WATERMARK_LENGTH⟩ := by
  simp only [embed_body, imdecode, wmEmbed]
  rw [if_neg (Nat.not_lt.mpr h1), if_pos h2]

theorem embed_success (pimg pwm : Nat) (t : List Char) (img : RasterImage)
    (h1 : t.length ≤ MAX_WATERMARK_LENGTH)
    (h2 : (textToBits (ljustPad t)).len ≤ capacity img.height img.width) :
    embed_watermark pimg pwm t (.plain img) =
      .ok ⟨⟨img.height, img.width,
        storeBits pimg (scramble pwm (textToBits (ljustPad t)))⟩,
        t.length, MAX_WATERMARK_LENGTH⟩ := by
  simp only [embed_watermark, embed_body_success pimg pwm t img h1 h2]

theorem embed_capacity_fail (pimg pwm : Nat) (t : List Char) (img : RasterImage)
    (h1 : t.length ≤ MAX_WATERMARK_LENGTH)
    (h2 : capacity img.height img.width < (textToBits (ljustPad t)).len) :
    embed_watermark pimg pwm t (.plain img) =
      .error ⟨500, embedWrapDetail (.lib .capacityExceeded)⟩ := by
  have hbody : embed_body pimg pwm t (.plain img)
      = .error (.lib .capacityExceeded) := by
    simp only [embed_body, imdecode, wmEmbed]
    rw [if_neg (Nat.not_lt.mpr h1), if_neg (Nat.not_le.mpr h2)]
  simp only [embed_watermark, hbody]

theorem embed_validation_fail (pimg pwm : Nat) (t : List Char)
    (f : ImageUpload) (h : MAX_WATERMARK_LENGTH < t.length) :
    embed_watermark pimg pwm t f = .error ⟨400, validationDetail⟩ := by
  have hbody : embed_body pimg pwm t f = .error (.http 400 validationDetail) := by
    simp only [embed_body]
    rw [if_pos h]
  simp only [embed_watermark, hbody]

theorem embed_no_validation (pimg pwm : Nat) (t : List Char) (f : ImageUpload)
    (h : t.length ≤ MAX_WATERMARK_LENGTH) :
    embed_watermark pimg pwm t f ≠ .error ⟨400, validationDetail⟩ := by
  cases f with
  | invalid =>
    have hbody : embed_body pimg pwm t .invalid
        = .error (.http 400 invalidImageDetail) := by
      simp only [embed_body, imdecode]
      rw [if_neg (Nat.not_lt.mpr h)]
    simp only [embed_watermark, hbody]
    intro hc
    simp only [Except.error.injEq, HTTPEx.mk.injEq] at hc
    exact absurd hc.2 (by decide)
  | plain img =>
    by_cases hcap :
        (textToBits (ljustPad t)).len ≤ capacity img.height img.width
    · rw [embed_success pimg pwm t img h hcap]
      intro hc
      cases hc
    · rw [embed_capacity_fail pimg pwm t img h (Nat.not_le.mp hcap)]
      intro hc
      simp only [Except.error.injEq, HTTPEx.mk.injEq] at hc
      omega
  | coded c =>
    have himg : imdecode (.coded c) = some ⟨c.height, c.width⟩ := rfl
    by_cases hcap : (textToBits (ljustPad t)).len
        ≤ capacity (RasterImage.mk c.height c.width).height
            (RasterImage.mk c.height c.width).width
    · have hbody : embed_body pimg pwm t (.coded c)
          = .ok ⟨⟨c.height, c.width,
            storeBits pimg (scramble pwm (textToBits (ljustPad t)))⟩,
            t.length, MAX_WATERMARK_LENGTH⟩ := by
        simp only [embed_body, imdecode, wmEmbed]
        rw [if_neg (Nat.not_lt.mpr h), if_pos hcap]
      simp only [embed_watermark, hbody]
      intro hc
      cases hc
    · have hbody : embed_body pimg pwm t (.coded c)
          = .error (.lib .capacityExceeded) := by
        simp only [embed_body, imdecode, wmEmbed]
        rw [if_neg (Nat.not_lt.mpr h), if_neg hcap]
      simp only [embed_watermark, hbody]
      intro hc
      simp only [Except.error.injEq, HTTPEx.mk.injEq] at hc
      omega

theorem embed_file_irrelevant_when_too_long (pimg pwm : Nat) (t : List Char)
    (f g : ImageUpload) (h : MAX_WATERMARK_LENGTH < t.length) :
    embed_watermark pimg pwm t f = embed_watermark pimg pwm t g := by
  rw [embed_validation_fail pimg pwm t f h, embed_validation_fail pimg pwm t g h]

theorem extract_coded_eq (pimg pwm : Nat) (c : CodedImage) :
    extract_watermark pimg pwm (.coded c) =
      .ok (rstripNul (bitsToText
        (wmExtractBits c pimg pwm FIXED_WM_BIT_LENGTH))) := rfl

theorem extract_ok_form (pimg pwm : Nat) (f : ImageUpload) (t : List Char)
    (h : extract_watermark pimg pwm f = .ok t) :
    ∃ c, t = rstripNul (bitsToText
      (wmExtractBits c pimg pwm FIXED_WM_BIT_LENGTH)) := by
  cases f with
  | invalid => cases h
  | plain img =>
    refine ⟨⟨img.height, img.width, ⟨0, 0⟩⟩, ?_⟩
    cases h
    rfl
  | coded c =>
    refine ⟨c, ?_⟩
    cases h
    rfl

theorem embed_extract_matched (pimg pwm : Nat) (t : List Char)
    (img : RasterImage) (h1 : t.length ≤ MAX_WATERMARK_LENGTH)
    (h2 : (textToBits (ljustPad t)).len ≤ capacity img.height img.width) :
    ∃ r, embed_watermark pimg pwm t (.plain img) = .ok r ∧
      rstripNul (bitsToText (wmExtractBits r.image pimg pwm
        (textToBits (ljustPad t)).len)) = rstripNul t := by
  refine ⟨_, embed_success pimg pwm t img h1 h2, ?_⟩
  dsimp only
  rw [wmExtract_exact _ _ _ _ _ (textToBits_val_lt _),
    bitsToText_textToBits, rstripNul_ljustPad]

/-- C1: counterexample — in the spec scenario (512-by-512 image, passwords
1234 and 5678, text "hello"), the service round trip embed-then-extract does
not return the original text: the service extracts the fixed 2047 bits while
the embedded payload has 2048 bits, so the recovered bits are shifted and
decode to different characters. -/
theorem C1_roundtrip_counterexample :
    embed_watermark 1234 5678 helloText (.plain img512)
        = .ok ⟨helloCoded, 5, 256⟩ ∧
    extract_watermark 1234 5678 (.coded helloCoded) ≠ .ok helloText :=
  ⟨by decide, by decide⟩

/-- C1 (amended): for every key pair and every source image with enough
capacity, embedding a text of at most 256 characters with no trailing NUL
and then extracting with the same key pair at the bit length actually
embedded (rather than the fixed 2047) returns exactly the original text. -/
theorem C1_roundtrip_amended (pimg pwm : Nat) (t : List Char)
    (img : RasterImage) (h1 : t.length ≤ MAX_WATERMARK_LENGTH)
    (h2 : rstripNul t = t)
    (h3 : (textToBits (ljustPad t)).len ≤ capacity img.height img.width) :
    ∃ r, embed_watermark pimg pwm t (.plain img) = .ok r ∧
      rstripNul (bitsToText (wmExtractBits r.image pimg pwm
        (textToBits (ljustPad t)).len)) = t := by
  obtain ⟨r, hr, hx⟩ := embed_extract_matched pimg pwm t img h1 h3
  exact ⟨r, hr, by rw [hx, h2]⟩

/-- C1 witness: the amended round trip at the spec scenario. -/
theorem C1_roundtrip_amended_witness :
    ∃ r, embed_watermark 1234 5678 helloText (.plain img512) = .ok r ∧
      rstripNul (bitsToText (wmExtractBits r.image 1234 5678
        (textToBits (ljustPad helloText)).len)) = helloText :=
  C1_roundtrip_amended 1234 5678 helloText img512 (by decide) (by decide)
    (by decide)

/-- C2: counterexample — the five-character text "hello" is accepted, yet the
bit sequence produced from its NUL-padded form has length 2048, not the fixed
FIXED_WM_BIT_LENGTH = 2047 that extraction always reads. -/
theorem C2_fixed_length_counterexample :
    helloText.length ≤ MAX_WATERMARK_LENGTH ∧
    (textToBits (ljustPad helloText)).len = 2048 ∧
    (textToBits (ljustPad helloText)).len ≠ FIXED_WM_BIT_LENGTH :=
  ⟨by decide, by decide, by decide⟩

/-- C2 (amended): for every accepted text the padded payload bit length is
eight times the UTF-8 byte length of the padded text, hence at least 2048 and
never equal to the fixed FIXED_WM_BIT_LENGTH = 2047 that extraction reads. -/
theorem C2_fixed_length_amended (t : List Char)
    (h : t.length ≤ MAX_WATERMARK_LENGTH) :
    (textToBits (ljustPad t)).len = 8 * (utf8Encode (ljustPad t)).length ∧
    2048 ≤ (textToBits (ljustPad t)).len ∧
    (textToBits (ljustPad t)).len ≠ FIXED_WM_BIT_LENGTH := by
  obtain ⟨h1, h2⟩ := textToBits_ljustPad_len t h
  refine ⟨h1, h2, ?_⟩
  have hF : FIXED_WM_BIT_LENGTH = 2047 := rfl
  omega

/-- C2 witness: the amended bit-length facts at the scenario text. -/
theorem C2_fixed_length_amended_witness :
    (textToBits (ljustPad helloText)).len
        = 8 * (utf8Encode (ljustPad helloText)).length ∧
    2048 ≤ (textToBits (ljustPad helloText)).len ∧
    (textToBits (ljustPad helloText)).len ≠ FIXED_WM_BIT_LENGTH :=
  C2_fixed_length_amended helloText (by decide)

/-- C3: embed fails with the 400 validation error exactly when the text
strictly exceeds 256 characters; when it does, the response does not depend
on the uploaded file (the failure precedes any image read); and a text of
exactly 256 characters passes validation and embeds successfully whenever
the image has enough capacity. -/
theorem C3_validation_boundary :
    (∀ pimg pwm t f, MAX_WATERMARK_LENGTH < List.length t →
      embed_watermark pimg pwm t f = .error ⟨400, validationDetail⟩) ∧
    (∀ pimg pwm t f g, MAX_WATERMARK_LENGTH < List.length t →
      embed_watermark pimg pwm t f = embed_watermark pimg pwm t g) ∧
    (∀ pimg pwm t f, List.length t ≤ MAX_WATERMARK_LENGTH →
      embed_watermark pimg pwm t f ≠ .error ⟨400, validationDetail⟩) ∧
    (∀ pimg pwm t img, List.length t = MAX_WATERMARK_LENGTH →
      (textToBits (ljustPad t)).len ≤ capacity img.height img.width →
      ∃ r, embed_watermark pimg pwm t (.plain img) = .ok r) := by
  refine ⟨?_, ?_, ?_, ?_⟩
  · exact fun pimg pwm t f h => embed_validation_fail pimg pwm t f h
  · exact fun pimg pwm t f g h =>
      embed_file_irrelevant_when_too_long pimg pwm t f g h
  · exact fun pimg pwm t f h => embed_no_validation pimg pwm t f h
  · exact fun pimg pwm t img h1 h2 =>
      ⟨_, embed_success pimg pwm t img (Nat.le_of_eq h1) h2⟩

/-- C3 witness: the validation boundary at concrete texts of 257, 256 and 5
characters. -/
theorem C3_validation_boundary_witness :
    embed_watermark 1234 5678 (List.replicate 257 (Char.ofNat 97))
        (.plain img512) = .error ⟨400, validationDetail⟩ ∧
    embed_watermark 1234 5678 (List.replicate 257 (Char.ofNat 97)) .invalid
        = embed_watermark 1234 5678 (List.replicate 257 (Char.ofNat 97))
            (.plain img512) ∧
    embed_watermark 1234 5678 helloText (.plain img512)
        ≠ .error ⟨400, validationDetail⟩ ∧
    ∃ r, embed_watermark 1234 5678 (List.replicate 256 (Char.ofNat 97))
        (.plain img512) = .ok r :=
  ⟨C3_validation_boundary.1 1234 5678 _ _ (by decide),
   C3_validation_boundary.2.1 1234 5678 _ _ _ (by decide),
   C3_validation_boundary.2.2.1 1234 5678 _ _ (by decide),
   C3_validation_boundary.2.2.2 1234 5678 _ img512 (by decide) (by decide)⟩

/-- C4: at the failing input (an upload whose bytes do not decode), the embed
handler surfaces the 400 "Invalid image file." response, but the extract
handler has no re-raise clause for HTTPException, so its catch-all except
clause re-wraps the same 400 exception into a generic 500 response — the
extract half of the claim is contradicted by the code. -/
theorem C4_input_error_divergence :
    embed_watermark 1234 5678 helloText .invalid
        = .error ⟨400, invalidImageDetail⟩ ∧
    extract_watermark 1234 5678 .invalid
        = .error ⟨500,
            "An error occurred during extraction: 400: Invalid image file."⟩ ∧
    (500 : Nat) ≠ 400 :=
  ⟨by decide, by decide, by decide⟩

/-- C5: counterexample — embedding "hello" into a 4-by-4 image (capacity 1
bit, far below the 2048-bit payload) does fail, but with the generic 500
internal-error response wrapping the engine message, not with a
distinguishable CapacityError kind: the status is the catch-all 500, not the
400 class used for the service's structured client errors. -/
theorem C5_capacity_counterexample :
    embed_watermark 1234 5678 helloText (.plain ⟨4, 4⟩)
        = .error ⟨500, embedWrapDetail (.lib .capacityExceeded)⟩ ∧
    (500 : Nat) ≠ 400 :=
  ⟨by decide, by decide⟩

/-- C5 (amended): embed checks the payload bit length against the capacity
through the engine: a strictly larger payload fails — surfaced as the
generic 500 internal error wrapping the engine's capacity message rather
than a distinguishable CapacityError kind — and a payload whose bit length
exactly equals the capacity succeeds. -/
theorem C5_capacity_amended :
    (∀ pimg pwm t img, List.length t ≤ MAX_WATERMARK_LENGTH →
      capacity img.height img.width < (textToBits (ljustPad t)).len →
      embed_watermark pimg pwm t (.plain img)
        = .error ⟨500, embedWrapDetail (.lib .capacityExceeded)⟩) ∧
    (∀ pimg pwm t img, List.length t ≤ MAX_WATERMARK_LENGTH →
      (textToBits (ljustPad t)).len = capacity img.height img.width →
      ∃ r, embed_watermark pimg pwm t (.plain img) = .ok r) := by
  refine ⟨?_, ?_⟩
  · exact fun pimg pwm t img h1 h2 => embed_capacity_fail pimg pwm t img h1 h2
  · exact fun pimg pwm t img h1 h2 =>
      ⟨_, embed_success pimg pwm t img h1 (Nat.le_of_eq h2)⟩

/-- C5 witness: capacity overflow on a 4-by-4 image and exact-capacity
success on an 8192-by-4 image (capacity exactly 2048 bits). -/
theorem C5_capacity_amended_witness :
    embed_watermark 1234 5678 helloText (.plain ⟨4, 4⟩)
        = .error ⟨500, embedWrapDetail (.lib .capacityExceeded)⟩ ∧
    ∃ r, embed_watermark 1234 5678 helloText (.plain ⟨8192, 4⟩) = .ok r :=
  ⟨C5_capacity_amended.1 1234 5678 helloText ⟨4, 4⟩ (by decide) (by decide),
   C5_capacity_amended.2 1234 5678 helloText ⟨8192, 4⟩ (by decide) (by decide)⟩

/-- C6: counterexample — for the accepted scenario text the actual payload
bit count (2048) differs from FIXED_WM_BIT_LENGTH (2047), yet embed returns
a success response: the handler records the actual bit count only for
logging, and no CodecError is signalled anywhere in the service. -/
theorem C6_codec_counterexample :
    (textToBits (ljustPad helloText)).len ≠ FIXED_WM_BIT_LENGTH ∧
    embed_watermark 1234 5678 helloText (.plain img512)
        = .ok ⟨helloCoded, 5, 256⟩ :=
  ⟨by decide, by decide⟩

/-- C6 (amended): the service performs no bit-count consistency check — for
every accepted text the actual payload bit count differs from
FIXED_WM_BIT_LENGTH, and embed nevertheless returns a success response
whenever the image decodes and has enough capacity. -/
theorem C6_codec_amended (pimg pwm : Nat) (t : List Char) (img : RasterImage)
    (h1 : t.length ≤ MAX_WATERMARK_LENGTH)
    (h2 : (textToBits (ljustPad t)).len ≤ capacity img.height img.width) :
    (textToBits (ljustPad t)).len ≠ FIXED_WM_BIT_LENGTH ∧
    ∃ r, embed_watermark pimg pwm t (.plain img) = .ok r := by
  obtain ⟨-, hge⟩ := textToBits_ljustPad_len t h1
  refine ⟨?_, ⟨_, embed_success pimg pwm t img h1 h2⟩⟩
  have hF : FIXED_WM_BIT_LENGTH = 2047 := rfl
  omega

/-- C6 witness: the amended no-check behaviour at the spec scenario. -/
theorem C6_codec_amended_witness :
    (textToBits (ljustPad helloText)).len ≠ FIXED_WM_BIT_LENGTH ∧
    ∃ r, embed_watermark 1234 5678 helloText (.plain img512) = .ok r :=
  C6_codec_amended 1234 5678 helloText img512 (by decide) (by decide)

/-- C7: counterexample — the empty text embedded with passwords (1234, 5678)
into the scenario image and then extracted with the different key pair
(1234, 5678 + 2^32) returns exactly the original text: the pseudorandom seed
state collides modulo 2^32, so a different key pair does not always yield a
different text. -/
theorem C7_key_sensitivity_counterexample :
    (5678 + 4294967296 : Nat) ≠ 5678 ∧
    embed_watermark 1234 5678 [] (.plain img512) = .ok ⟨emptyCoded, 0, 256⟩ ∧
    extract_watermark 1234 (5678 + 4294967296) (.coded emptyCoded) = .ok [] :=
  ⟨by decide, by decide, by decide⟩

/-- C7 (amended): extraction completes without raising an error for every
key pair on every upload that decodes (a wrong key pair is never detected),
and in the spec's concrete scenario a changed watermark password (5679
instead of 5678) does yield a text different from the embedded one; but a
different key pair is not guaranteed to yield different text for every
choice of keys. -/
theorem C7_key_sensitivity_amended :
    (∀ pimg pwm c, extract_watermark pimg pwm (.coded c)
        = .ok (rstripNul (bitsToText
            (wmExtractBits c pimg pwm FIXED_WM_BIT_LENGTH)))) ∧
    (∃ t, extract_watermark 1234 5679 (.coded helloCoded) = .ok t ∧
      t ≠ helloText) :=
  ⟨fun pimg pwm c => extract_coded_eq pimg pwm c,
   ⟨_, extract_coded_eq 1234 5679 helloCoded, by decide⟩⟩

/-- C8: counterexample — the embed response is not free of length metadata:
its X-Original-Length header carries the original character count (5 for the
scenario text), which is length metadata in the spec's sense (an explicit
character count), even though extraction never consumes it. -/
theorem C8_metadata_counterexample :
    embed_watermark 1234 5678 helloText (.plain img512)
        = .ok ⟨helloCoded, helloText.length, MAX_WATERMARK_LENGTH⟩ ∧
    helloText.length = 5 :=
  ⟨by decide, by decide⟩

/-- C8 (amended): extraction needs nothing beyond the two passwords and the
image bytes — it always reads the fixed bit length — and the embed response
omits the payload bit length, though it does echo the original character
count in its X-Original-Length debug header. -/
theorem C8_metadata_amended :
    (∀ pimg pwm c, ∃ t, extract_watermark pimg pwm (.coded c) = .ok t) ∧
    (∀ pimg pwm t img, List.length t ≤ MAX_WATERMARK_LENGTH →
      (textToBits (ljustPad t)).len ≤ capacity img.height img.width →
      embed_watermark pimg pwm t (.plain img)
        = .ok ⟨⟨img.height, img.width,
            storeBits pimg (scramble pwm (textToBits (ljustPad t)))⟩,
          List.length t, MAX_WATERMARK_LENGTH⟩) :=
  ⟨fun pimg pwm c => ⟨_, extract_coded_eq pimg pwm c⟩,
   fun pimg pwm t img h1 h2 => embed_success pimg pwm t img h1 h2⟩

/-- C8 witness: the amended interface facts at the spec scenario. -/
theorem C8_metadata_amended_witness :
    (∃ t, extract_watermark 1234 5678 (.coded helloCoded) = .ok t) ∧
    embed_watermark 1234 5678 helloText (.plain img512)
        = .ok ⟨⟨img512.height, img512.width,
            storeBits 1234 (scramble 5678 (textToBits (ljustPad helloText)))⟩,
          List.length helloText, MAX_WATERMARK_LENGTH⟩ :=
  ⟨C8_metadata_amended.1 1234 5678 helloCoded,
   C8_metadata_amended.2 1234 5678 helloText img512 (by decide) (by decide)⟩

/-- C9: counterexample — for the text "a" followed by one NUL, the service
round trip returns neither the original text nor the original with its
trailing NUL removed: the fixed-length mismatch garbles the payload, so the
trailing-NUL round-trip behaviour does not hold as stated. -/
theorem C9_sentinel_counterexample :
    embed_watermark 1234 5678 aNulText (.plain img512)
        = .ok ⟨aNulCoded, 2, 256⟩ ∧
    extract_watermark 1234 5678 (.coded aNulCoded)
        ≠ .ok (rstripNul aNulText) ∧
    extract_watermark 1234 5678 (.coded aNulCoded) ≠ .ok aNulText :=
  ⟨by decide, by decide, by decide⟩

/-- C9 (amended): the extracted text never ends with a NUL character (the
handler strips all trailing NULs); embed accepts texts containing the NUL
sentinel, since validation depends only on the character count; and for
every accepted text the round trip with extraction at the actually embedded
bit length returns the text with its trailing NULs removed. -/
theorem C9_sentinel_amended :
    (∀ pimg pwm f t, extract_watermark pimg pwm f = .ok t →
      t.getLast? ≠ some nulChar) ∧
    (∀ pimg pwm t f, List.length t ≤ MAX_WATERMARK_LENGTH →
      embed_watermark pimg pwm t f ≠ .error ⟨400, validationDetail⟩) ∧
    (∀ pimg pwm t img, List.length t ≤ MAX_WATERMARK_LENGTH →
      (textToBits (ljustPad t)).len ≤ capacity img.height img.width →
      ∃ r, embed_watermark pimg pwm t (.plain img) = .ok r ∧
        rstripNul (bitsToText (wmExtractBits r.image pimg pwm
          (textToBits (ljustPad t)).len)) = rstripNul t) := by
  refine ⟨?_, ?_, ?_⟩
  · intro pimg pwm f t h
    obtain ⟨c, hc⟩ := extract_ok_form pimg pwm f t h
    rw [hc]
    exact rstripNul_getLast? _
  · exact fun pimg pwm t f h => embed_no_validation pimg pwm t f h
  · exact fun pimg pwm t img h1 h2 =>
      embed_extract_matched pimg pwm t img h1 h2

/-- C9 witness: the amended facts at the NUL-terminated text "a"-NUL. -/
theorem C9_sentinel_amended_witness :
    (rstripNul (bitsToText (wmExtractBits aNulCoded 1234 5678
        FIXED_WM_BIT_LENGTH))).getLast? ≠ some nulChar ∧
    embed_watermark 1234 5678 aNulText (.plain img512)
        ≠ .error ⟨400, validationDetail⟩ ∧
    ∃ r, embed_watermark 1234 5678 aNulText (.plain img512) = .ok r ∧
      rstripNul (bitsToText (wmExtractBits r.image 1234 5678
        (textToBits (ljustPad aNulText)).len)) = rstripNul aNulText :=
  ⟨C9_sentinel_amended.1 1234 5678 (.coded aNulCoded) _
      (extract_coded_eq 1234 5678 aNulCoded),
   C9_sentinel_amended.2.1 1234 5678 aNulText (.plain img512) (by decide),
   C9_sentinel_amended.2.2 1234 5678 aNulText img512 (by decide) (by decide)⟩

/-- C10: validation and padding count characters, not bytes — every text of
at most 256 characters is accepted and padded to exactly 256 characters, and
a 256-character text of three-byte characters yields a padded payload of 768
UTF-8 bytes, so the padded byte length is not bounded by 256. -/
theorem C10_char_count :
    (∀ pimg pwm t f, List.length t ≤ MAX_WATERMARK_LENGTH →
      embed_watermark pimg pwm t f ≠ .error ⟨400, validationDetail⟩) ∧
    (∀ t, List.length t ≤ MAX_WATERMARK_LENGTH →
      (ljustPad t).length = MAX_WATERMARK_LENGTH) ∧
    cjkText.length = 256 ∧
    (utf8Encode (ljustPad cjkText)).length = 768 ∧
    256 < (utf8Encode (ljustPad cjkText)).length := by
  refine ⟨fun pimg pwm t f h => embed_no_validation pimg pwm t f h,
    fun t h => ljustPad_length t h, by decide, by decide, by decide⟩

/-- C10 witness: acceptance and padding of the 256-character multi-byte
text. -/
theorem C10_char_count_witness :
    embed_watermark 1234 5678 cjkText (.plain img512)
        ≠ .error ⟨400, validationDetail⟩ ∧
    (ljustPad cjkText).length = MAX_WATERMARK_LENGTH :=
  ⟨C10_char_count.1 1234 5678 cjkText (.plain img512) (by decide),
   C10_char_count.2.1 cjkText (by decide)⟩

end BlindWatermark
